import Mathlib

/-!
# Verification of the `nano_dev_utils` file-tree renderer

Shallow embedding of `src/nano_dev_utils/file_tree_display.py` and the
predicate builder of `src/nano_dev_utils/common.py`, together with proofs
of the specification claims about them.

Filesystem modelling: a directory tree is an inductive value.  Each
directory node carries an `EnumStatus` recording how `os.scandir` behaves
on it (`ok`, or raising `PermissionError` / another `OSError`), so that the
error-handling paths of `_build_tree` can be exercised.  A symlink entry
records whether its target is a directory, letting us model the
`entry.is_dir(follow_symlinks=False)` classification.
-/

/-- Result of attempting to enumerate a directory with `os.scandir`:
either it succeeds, raises `PermissionError`, or raises another `OSError`
(the `except (PermissionError, OSError, FileNotFoundError)` clause of
`_build_tree`). -/
inductive EnumStatus where
  | ok
  | permissionDenied
  | readError
deriving DecidableEq, Repr

/-- A filesystem entry as seen by `os.scandir`.  `symlink name b` is a
symbolic link whose target is a directory iff `b`. -/
inductive FSNode where
  | file (name : String)
  | symlink (name : String) (targetIsDir : Bool)
  | dir (name : String) (status : EnumStatus) (children : List FSNode)

/-- Model of `entry.name`. -/
def FSNode.name : FSNode → String
  | .file n => n
  | .symlink n _ => n
  | .dir n _ _ => n

/-- Model of `entry.is_dir(follow_symlinks=False)`: true only for an actual
directory; a symlink is never reported as a directory when symlinks are
not followed, regardless of its target. -/
def FSNode.isDirNoFollow : FSNode → Bool
  | .dir _ _ _ => true
  | _ => false

mutual

/-- Size measure for termination of the tree walk. -/
def nodeSize : FSNode → Nat
  | .file _ => 1
  | .symlink _ _ => 1
  | .dir _ _ ch => 1 + listSize ch

/-- Total size of a list of nodes. -/
def listSize : List FSNode → Nat
  | [] => 0
  | e :: es => nodeSize e + listSize es

end

theorem nodeSize_pos (e : FSNode) : 1 ≤ nodeSize e := by
  cases e <;> simp [nodeSize]

theorem listSize_append (l₁ l₂ : List FSNode) :
    listSize (l₁ ++ l₂) = listSize l₁ + listSize l₂ := by
  induction l₁ with
  | nil => simp [listSize]
  | cons e es ih => simp [listSize, ih]; omega

theorem listSize_filter (p : FSNode → Bool) (l : List FSNode) :
    listSize (l.filter p) ≤ listSize l := by
  induction l with
  | nil => simp [listSize]
  | cons e es ih =>
    by_cases h : p e
    · simp [List.filter, h, listSize]; omega
    · simp [List.filter, h, listSize]
      have := nodeSize_pos e
      omega

/-- Stable insertion: place `a` after every already-placed element `b`
with `¬ lt b a` not yet passed, i.e. `a` goes before the first `b` with
`b` not strictly below `a`.  This is the standard stable-insert step. -/
def insOrd (lt : α → α → Bool) (a : α) : List α → List α
  | [] => [a]
  | b :: bs => if lt b a then b :: insOrd lt a bs else a :: b :: bs

/-- Stable sort by a strict comparison, modelling Python's stable
`list.sort`: equal-rank elements keep their original relative order. -/
def stableSort (lt : α → α → Bool) : List α → List α
  | [] => []
  | a :: as => insOrd lt a (stableSort lt as)

theorem listSize_insOrd (lt : FSNode → FSNode → Bool) (a : FSNode)
    (l : List FSNode) : listSize (insOrd lt a l) = nodeSize a + listSize l := by
  induction l with
  | nil => simp [insOrd, listSize]
  | cons b bs ih =>
    by_cases h : lt b a
    · simp [insOrd, h, listSize, ih]; omega
    · simp [insOrd, h, listSize]

theorem listSize_stableSort (lt : FSNode → FSNode → Bool) (l : List FSNode) :
    listSize (stableSort lt l) = listSize l := by
  induction l with
  | nil => rfl
  | cons a as ih => simp [stableSort, listSize_insOrd, ih, listSize]

/-!
## Connector styles

`connector_styler` and `style_dict` from `FileTreeDisplay.__init__`:
`space = ' ' * indent`, `vertical = '│' + ' ' * (indent - 1)` (Python's
`' ' * k` is empty for `k ≤ 0`, matching `Nat` truncated subtraction).
-/

structure Style where
  space : String
  vertical : String
  branch : String
  endc : String

/-- Python's `' ' * n`. -/
def mkSpaces (n : Nat) : String := String.mk (List.replicate n ' ')

/-- Model of `FileTreeDisplay.connector_styler`. -/
def connector_styler (indent : Nat) (branch endc : String) : Style :=
  { space := mkSpaces indent
    vertical := "│" ++ mkSpaces (indent - 1)
    branch := branch
    endc := endc }

/-- Model of `FileTreeDisplay.style_dict` (the four registered styles). -/
def style_dict (indent : Nat) : List (String × Style) :=
  [ ("classic", connector_styler indent "├── " "└── ")
  , ("dash", connector_styler indent "|-- " "`-- ")
  , ("arrow", connector_styler indent "├─> " "└─> ")
  , ("plus", connector_styler indent "+--- " "\\--- ") ]

/-!
## The recursive walk (`_build_tree`)

The runtime constants threaded through `_build_tree` are collected in a
context record.  Python's `list.sort(key=k, reverse=r)` is modelled by the
stable sort above, comparing entry names with a strict comparison
`sortLt` (the order induced by the sort key); `reverse=True` flips the
comparison while keeping stability, exactly as CPython's sort does.
-/

structure WalkCtx where
  style : Style
  sortLt : Option (String → String → Bool)
  files_first : Bool
  dir_filter : String → Bool
  file_filter : String → Bool
  reverse : Bool
  indent : Nat

/-- One `list.sort(key=..., reverse=...)` step on entry names
(`dirs.sort` / `files.sort` in `_build_tree`); no sort key means the
list is left in enumeration order. -/
def sortStep (ctx : WalkCtx) (l : List FSNode) : List FSNode :=
  match ctx.sortLt with
  | none => l
  | some lt =>
    stableSort
      (fun a b =>
        if ctx.reverse then lt b.name a.name else lt a.name b.name) l

/-- The filtered, sorted, `files_first`-ordered listing of a directory's
children: the partition loop of `_build_tree` (classification via
`is_dir(follow_symlinks=False)`, the two name filters), the two in-place
sorts, and the `chain` combining the partitions. -/
def combinedListing (ctx : WalkCtx) (children : List FSNode) : List FSNode :=
  let dirs := children.filter fun e => e.isDirNoFollow && ctx.dir_filter e.name
  let files := children.filter fun e => !e.isDirNoFollow && ctx.file_filter e.name
  if ctx.files_first then sortStep ctx files ++ sortStep ctx dirs
  else sortStep ctx dirs ++ sortStep ctx files

theorem listSize_sortStep (ctx : WalkCtx) (l : List FSNode) :
    listSize (sortStep ctx l) = listSize l := by
  unfold sortStep
  cases ctx.sortLt with
  | none => rfl
  | some lt => exact listSize_stableSort _ l

theorem listSize_filter_pair (f g : String → Bool) (l : List FSNode) :
    listSize (l.filter fun e => e.isDirNoFollow && f e.name)
      + listSize (l.filter fun e => !e.isDirNoFollow && g e.name)
      ≤ listSize l := by
  induction l with
  | nil => simp [listSize]
  | cons e es ih =>
    have h1 := nodeSize_pos e
    cases he : e.isDirNoFollow <;>
      cases hf : f e.name <;>
      cases hg : g e.name <;>
      simp [List.filter_cons, he, hf, hg, listSize] <;>
      omega

theorem listSize_combinedListing (ctx : WalkCtx) (children : List FSNode) :
    listSize (combinedListing ctx children) ≤ listSize children := by
  have key := listSize_filter_pair ctx.dir_filter ctx.file_filter children
  unfold combinedListing
  by_cases h : ctx.files_first <;>
    simp [h, listSize_append, listSize_sortStep] <;>
    omega

mutual

/-- The body of `_build_tree` on one directory: the
`try os.scandir ... except` block (placeholder lines on enumeration
failure, lines 264-269 of `file_tree_display.py`), then filtering,
sorting, combining and the emission loop.  Note the placeholder lines
are yielded as-is, without the accumulated `pfx`. -/
def walkChildren (ctx : WalkCtx) (st : EnumStatus) (children : List FSNode)
    (pfx : String) : List String :=
  match st with
  | .permissionDenied => ["[Permission Denied]"]
  | .readError => ["[Error reading directory]"]
  | .ok => emitEntries ctx (combinedListing ctx children) pfx
termination_by 3 * listSize children + 2
decreasing_by
  simp_wf
  have := listSize_combinedListing ctx children
  omega

/-- The `for idx, (name, path, is_dir) in enumerate(combined)` loop:
`idx == last_index` holds exactly for the final list element. -/
def emitEntries (ctx : WalkCtx) (entries : List FSNode) (pfx : String) :
    List String :=
  match entries with
  | [] => []
  | [e] => renderEntry ctx e pfx true
  | e :: rest => renderEntry ctx e pfx false ++ emitEntries ctx rest pfx
termination_by 3 * listSize entries + 1
decreasing_by
  · simp_wf
    simp [listSize]
  · simp_wf
    simp [listSize]
    omega
  · simp_wf
    have := nodeSize_pos e
    simp [listSize]
    omega

/-- One iteration of the emission loop: the entry's own line
(`prefix + connector + formatted_name`, with a `/` suffix exactly when
the entry was classified as a directory) followed, for directories, by
the recursive walk under `prefix + extension`. -/
def renderEntry (ctx : WalkCtx) (e : FSNode) (pfx : String) (isLast : Bool) :
    List String :=
  let connector := if isLast then ctx.style.endc else ctx.style.branch
  let formatted := if e.isDirNoFollow then e.name ++ "/" else e.name
  let line := pfx ++ connector ++ formatted
  let extension := if isLast then ctx.style.space else ctx.style.vertical
  match e with
  | .dir _ st ch => line :: walkChildren ctx st ch (pfx ++ extension)
  | _ => [line]
termination_by 3 * nodeSize e
decreasing_by
  simp_wf
  simp [nodeSize]
  omega

end

/-!
## Sort keys (`_nat_key`, `_lex_key`) and Python comparison semantics

Python's `list.sort(key=k)` compares `k(a)` with `k(b)`; for `_nat_key`
the key is a list of alternating string/integer chunks (as produced by
`re.compile(r'(\d+)').split` with digit runs converted to `int` and the
other parts lowercased), compared by Python's lexicographic list order;
for `_lex_key` it is the lowercased name, compared by code points.
-/

/-- One element of a `_nat_key` key list: a lowercased non-digit run or
the integer value of a digit run. -/
inductive NatChunk where
  | str (s : String)
  | num (n : Nat)
deriving DecidableEq, Repr

/-- Value of a decimal digit run, as Python's `int(part)`. -/
def digitsToNat (cs : List Char) : Nat :=
  cs.foldl (fun a c => 10 * a + (c.toNat - '0'.toNat)) 0

theorem length_dropWhile_le' (p : α → Bool) (l : List α) :
    (l.dropWhile p).length ≤ l.length := by
  induction l with
  | nil => simp
  | cons a as ih =>
    by_cases h : p a <;> simp [List.dropWhile, h] <;> omega

/-- Python's `str.lower`, modelled per character (`Char.toLower`; ASCII
case mapping, which covers the names appearing in the claims). -/
def pyLower (s : String) : String := String.mk (s.data.map Char.toLower)

/-- Maximal same-class runs (digit vs non-digit) of a character list,
in order: exactly the parts produced by `re.compile(r'(\\d+)').split`,
except that the empty boundary parts are reinstated by `runsFromStr`
below. -/
def charRuns : List Char → List (Bool × List Char)
  | [] => []
  | c :: rest =>
    match charRuns rest with
    | (b, run) :: more =>
      if c.isDigit = b then (b, c :: run) :: more
      else (c.isDigit, [c]) :: (b, run) :: more
    | [] => [(c.isDigit, [c])]

mutual

/-- Conversion of the runs into the `_nat_key` chunk list, at a position
where `re.split` emits a (possibly empty) non-digit part: digit parts
become `int(part)`, the others `part.lower()`. -/
def runsFromStr : List (Bool × List Char) → List NatChunk
  | [] => [.str ""]
  | (false, r) :: more => .str (pyLower (String.mk r)) :: runsFromNum more
  | (true, r) :: more => .str "" :: .num (digitsToNat r) :: runsFromStr more

/-- Conversion right after a non-digit part was emitted: the input ends,
or a digit run follows (two adjacent non-digit runs cannot occur in the
output of `charRuns`; the case is kept only for totality). -/
def runsFromNum : List (Bool × List Char) → List NatChunk
  | [] => []
  | (true, r) :: more => .num (digitsToNat r) :: runsFromStr more
  | (false, r) :: more => .str (pyLower (String.mk r)) :: runsFromNum more

end

/-- Splitting of a character list as performed by `_nat_key`:
`re.compile(r'(\\d+)').split` alternates (possibly empty) non-digit
parts with maximal digit runs, always beginning and ending with a
non-digit part; digit runs are converted with `int`, the rest with
`str.lower`. -/
def natChunks (cs : List Char) : List NatChunk := runsFromStr (charRuns cs)

/-- Model of `FileTreeDisplay._nat_key`. -/
def _nat_key (name : String) : List NatChunk := natChunks name.data

/-- Model of `FileTreeDisplay._lex_key` (`name.lower()`). -/
def _lex_key (name : String) : String := pyLower name

/-- Python's lexicographic sequence comparison: the first position where
the elements differ decides; a strict prefix is smaller. -/
def listLtBy (lt : α → α → Bool) : List α → List α → Bool
  | _, [] => false
  | [], _ :: _ => true
  | a :: as, b :: bs =>
    if lt a b then true
    else if lt b a then false
    else listLtBy lt as bs

/-- Python's string comparison (by code points). -/
def strLtB (a b : String) : Bool :=
  listLtBy (fun c d : Char => c.toNat < d.toNat) a.data b.data

/-- Comparison of `_nat_key` chunks.  Python compares ints with ints and
strings with strings; a mixed comparison would raise `TypeError`, but it
is unreachable for keys produced by `_nat_key` because every key list
alternates string chunks (even positions) and integer chunks (odd
positions), so the values chosen for the mixed cases are arbitrary. -/
def chunkLtB : NatChunk → NatChunk → Bool
  | .num n, .num m => n < m
  | .str s, .str t => strLtB s t
  | .num _, .str _ => true
  | .str _, .num _ => false

/-- The strict order on names induced by sorting with `key=_nat_key`. -/
def natLtB (a b : String) : Bool := listLtBy chunkLtB (_nat_key a) (_nat_key b)

/-- The strict order on names induced by sorting with `key=_lex_key`. -/
def lexLtB (a b : String) : Bool := strLtB (_lex_key a) (_lex_key b)

/-- Sorting a list of plain names the way `files.sort(key=sort_key)` does
(stable, by the strict order induced by the key). -/
def pySortNames (lt : String → String → Bool) (l : List String) : List String :=
  stableSort lt l

/-!
## The predicate builder (`common.PredicateBuilder`)

Glob patterns are the items containing `*`, `?` or `[`; they are matched
against whole names (`re.fullmatch` of `fnmatch.translate(item)`).  The
matcher below implements the translated-pattern semantics: `*` matches
any (possibly empty) run, `?` any single character, `[...]` a character
class with ranges and `!`-negation, a `]` immediately after the opening
(or after `!`) is a literal member, and an unterminated `[` matches a
literal `[` character.
-/

/-- Character-class parser: consumes the class body after `[` (and after
an optional `!` and optional literal leading `]`, both handled by the
caller), returning the accumulated members as closed ranges plus the
remaining pattern, or `none` when no closing `]` exists (in which case
`fnmatch.translate` treats the `[` as a literal character).  A chunk
`a-b` not at the edges is a range; a `-` just before the closing `]` is
a literal member. -/
def parseClassBody : List Char → List (Char × Char) →
    Option (List (Char × Char) × List Char)
  | [], _ => none
  | c :: rest, acc =>
    if c = ']' then some (acc.reverse, rest)
    else
      match rest with
      | '-' :: b :: rest2 =>
        if b = ']' then some ((('-', '-') :: (c, c) :: acc).reverse, rest2)
        else parseClassBody rest2 ((c, b) :: acc)
      | r => parseClassBody r ((c, c) :: acc)
termination_by cs _ => cs.length
decreasing_by
  all_goals simp_wf <;> omega

/-- Class parsing after the optional `!`: a `]` in first position is a
literal member (`fnmatch.translate` skips it when searching for the
closing bracket). -/
def parseClassStart (cs1 : List Char) : Option (List (Char × Char) × List Char) :=
  match cs1 with
  | ']' :: t => parseClassBody t [(']', ']')]
  | _ => parseClassBody cs1 []

/-- Wrapper handling the optional leading `!` (class negation). -/
def parseClass (cs : List Char) : Option (Bool × List (Char × Char) × List Char) :=
  match cs with
  | '!' :: cs1 => (parseClassStart cs1).map fun p => (true, p.1, p.2)
  | _ => (parseClassStart cs).map fun p => (false, p.1, p.2)

theorem parseClassBody_length (cs : List Char) (acc : List (Char × Char))
    (items : List (Char × Char)) (rest : List Char)
    (h : parseClassBody cs acc = some (items, rest)) : rest.length < cs.length := by
  induction cs, acc using parseClassBody.induct generalizing items rest with
  | case1 x => simp [parseClassBody] at h
  | case2 rest' acc =>
    unfold parseClassBody at h
    simp at h
    obtain ⟨h1, h2⟩ := h
    subst h2
    simp
  | case3 c acc hc rest2 =>
    unfold parseClassBody at h
    rw [if_neg hc] at h
    simp at h
    obtain ⟨h1, h2⟩ := h
    subst h2
    simp
    omega
  | case4 c acc hc b rest2 hb ih =>
    unfold parseClassBody at h
    rw [if_neg hc] at h
    simp [hb] at h
    have := ih _ _ h
    simp
    omega
  | case5 c acc hc r hshape ih =>
    unfold parseClassBody at h
    rw [if_neg hc] at h
    split at h
    · rename_i x y z
      exact (hshape y z rfl).elim
    · rename_i hne
      have := ih _ _ h
      simp
      omega

theorem parseClassStart_length (cs1 : List Char)
    (items : List (Char × Char)) (rest : List Char)
    (h : parseClassStart cs1 = some (items, rest)) : rest.length < cs1.length := by
  unfold parseClassStart at h
  split at h
  · rename_i t
    have := parseClassBody_length _ _ _ _ h
    simp
    omega
  · exact parseClassBody_length _ _ _ _ h

theorem parseClass_length (cs : List Char) (neg : Bool)
    (items : List (Char × Char)) (rest : List Char)
    (h : parseClass cs = some (neg, items, rest)) : rest.length < cs.length := by
  unfold parseClass at h
  split at h
  · rename_i cs1
    match hps : parseClassStart cs1 with
    | none => rw [hps] at h; simp at h
    | some (i, r) =>
      rw [hps] at h
      simp at h
      have := parseClassStart_length _ _ _ hps
      simp [← h.2.2]
      omega
  · rename_i hne
    match hps : parseClassStart cs with
    | none => rw [hps] at h; simp at h
    | some (i, r) =>
      rw [hps] at h
      simp at h
      have := parseClassStart_length _ _ _ hps
      simp [← h.2.2]
      omega

/-- Membership test of a character in a parsed class (ranges are closed
intervals of code points; `neg` inverts the result, as `[!...]`). -/
def matchesClass (neg : Bool) (items : List (Char × Char)) (c : Char) : Bool :=
  let m := items.any fun p => p.1.toNat ≤ c.toNat && c.toNat ≤ p.2.toNat
  if neg then !m else m

/-- Whole-name glob matching: the semantics of
`re.compile(fnmatch.translate(item)).fullmatch(name)` for a translated
shell pattern (`*` any run, `?` one character, `[...]` a class, an
unterminated `[` a literal `[`, anything else a literal character). -/
def globMatch : List Char → List Char → Bool
  | [], [] => true
  | [], _ :: _ => false
  | '*' :: ps, ns =>
    globMatch ps ns ||
      (match ns with
       | [] => false
       | _ :: t => globMatch ('*' :: ps) t)
  | '?' :: ps, ns =>
    (match ns with
     | [] => false
     | _ :: t => globMatch ps t)
  | '[' :: ps, ns =>
    (match hpc : parseClass ps with
     | some (neg, items, rest) =>
       (match ns with
        | [] => false
        | c :: t => matchesClass neg items c && globMatch rest t)
     | none =>
       (match ns with
        | [] => false
        | c :: t => (c = '[') && globMatch ps t))
  | p :: ps, ns =>
    (match ns with
     | [] => false
     | c :: t => (p = c) && globMatch ps t)
termination_by ps ns => ps.length + ns.length
decreasing_by
  all_goals simp_wf
  all_goals try omega
  all_goals have hlen := parseClass_length _ _ _ _ hpc
  all_goals omega

/-- Test for the wildcard characters that make `compile_patts` treat an
item as a pattern (`'*' in item or '?' in item or '[' in item`). -/
def hasWildcard (s : String) : Bool :=
  s.data.any fun c => c = '*' || c = '?' || c = '['

/-- Model of `PredicateBuilder.compile_patts`: partition a filter set
into exact-match literals and glob patterns.  The Python literal *set*
is modelled as a list (only membership is ever used). -/
def compile_patts (fs : List String) : List String × List String :=
  (fs.filter fun s => !hasWildcard s, fs.filter hasWildcard)

/-- Model of `PredicateBuilder._match_patts`: true when the name fully
matches any compiled pattern. -/
def _match_patts (name : String) (patterns : List String) : Bool :=
  patterns.any fun p => globMatch p.data name.data

/-- Model of `PredicateBuilder._match_patt_with_lits`. -/
def _match_patt_with_lits (name : String) (name_lits : List String)
    (name_patts : List String) (negate : Bool) : Bool :=
  let res := name_lits.contains name || _match_patts name name_patts
  if negate then !res else res

/-- Model of `PredicateBuilder._allow_block_predicate` (block takes
precedence over allow). -/
def _allow_block_predicate (name : String) (allow_lits allow_patts
    block_lits block_patts : List String) : Bool :=
  if block_lits.contains name || _match_patts name block_patts then false
  else if allow_lits.contains name || _match_patts name allow_patts then true
  else false

/-- Model of `PredicateBuilder.build_predicate`: the `match` on the
`(allow non-empty, block non-empty)` flag pair. -/
def build_predicate (allow block : List String) : String → Bool :=
  let ap := compile_patts allow
  let bp := compile_patts block
  match (!(ap.1.isEmpty && ap.2.isEmpty) : Bool), (!(bp.1.isEmpty && bp.2.isEmpty) : Bool) with
  | false, false => fun _ => true
  | false, true => fun name => _match_patt_with_lits name bp.1 bp.2 true
  | true, false => fun name => _match_patt_with_lits name ap.1 ap.2 false
  | true, true => fun name => _allow_block_predicate name ap.1 ap.2 bp.1 bp.2

/-!
## The top-level render call (`FileTreeDisplay.file_tree_display`)

Validation failures raise exceptions in the source; the model returns
`Except.error` with a typed error, in the source order: the
`root_path.is_dir()` check, then `format_style`, then (unless
`skip_sorting`) `_resolve_sort_key`.  A successful call produces the
artifact string plus a record of the sinks triggered: `written` is the
path handed to `str2file` when `self.save2file and filepath` holds
(Python treats both `None` and the empty string as falsy), and
`printed` records the `printout` flag.
-/

/-- The typed errors of the render call (`NotADirectoryError` and the
three `ValueError`s of `format_style` / `_resolve_sort_key`). -/
inductive FtdError where
  | notADirectory
  | invalidStyle
  | invalidSortKey
  | missingCustomSort
deriving DecidableEq, Repr

/-- A `pathlib.Path` is modelled as a parent string plus a final
component; `with_name` replaces the final component. -/
structure PyPath where
  parent : String
  name : String
deriving DecidableEq, Repr

/-- Model of `Path.with_name`. -/
def PyPath.withName (p : PyPath) (n : String) : PyPath := { p with name := n }

/-- Model of `str(path)` (separator normalization abstracted). -/
def pathStr (p : PyPath) : String := p.parent ++ "/" ++ p.name

/-- The configuration of one `FileTreeDisplay` instance together with
the filesystem it observes: `rootIsDir` is the `root_path.is_dir()`
answer, `rootStatus`/`rootChildren` describe `os.scandir` on the root,
and `custom_sort` is the strict name order induced by the caller's
custom key (absent when `custom_sort=None`). -/
structure FTDConfig where
  root : PyPath
  rootIsDir : Bool
  rootStatus : EnumStatus
  rootChildren : List FSNode
  filepath : Option String
  ignore_dirs : List String
  ignore_files : List String
  include_dirs : List String
  include_files : List String
  style : String
  indent : Nat
  files_first : Bool
  skip_sorting : Bool
  sort_key_name : String
  reverse : Bool
  custom_sort : Option (String → String → Bool)
  save2file : Bool
  printout : Bool

/-- The `dir_filter` attribute built in `__init__`. -/
def FTDConfig.dir_filter (cfg : FTDConfig) : String → Bool :=
  build_predicate cfg.include_dirs cfg.ignore_dirs

/-- The `file_filter` attribute built in `__init__`. -/
def FTDConfig.file_filter (cfg : FTDConfig) : String → Bool :=
  build_predicate cfg.include_files cfg.ignore_files

/-- Model of `FileTreeDisplay.format_style`: look the style name up in
the registry. -/
def format_style (cfg : FTDConfig) : Except FtdError Style :=
  match List.lookup cfg.style (style_dict cfg.indent) with
  | some s => Except.ok s
  | none => Except.error FtdError.invalidStyle

/-- The `sort_keys` dict of `__init__`: the stored value for `custom` is
the caller-supplied comparator, which may be absent (Python `None`). -/
def FTDConfig.sort_keys (cfg : FTDConfig) :
    List (String × Option (String → String → Bool)) :=
  [ ("natural", some natLtB)
  , ("lex", some lexLtB)
  , ("custom", cfg.custom_sort) ]

/-- Model of `FileTreeDisplay._resolve_sort_key`: `sort_keys.get(name)`
is `None` both for an unknown name and for `custom` with no comparator;
the source then distinguishes the two error messages by re-checking the
name. -/
def _resolve_sort_key (cfg : FTDConfig) :
    Except FtdError (String → String → Bool) :=
  match (List.lookup cfg.sort_key_name cfg.sort_keys).join with
  | some k => Except.ok k
  | none =>
    if cfg.sort_key_name = "custom" then Except.error FtdError.missingCustomSort
    else Except.error FtdError.invalidSortKey

/-- Model of `FileTreeDisplay.get_tree_info`: header line, one line per
yielded entry, each suffixed with a newline, and the final newline
stripped (`out[:-1] if out.endswith('\n') else out`). -/
def get_tree_info (rootName : String) (lines : List String) : String :=
  let out := rootName ++ "/\n" ++ String.join (lines.map fun l => l ++ "\n")
  if out.data.getLast? = some '\n' then String.mk out.data.dropLast else out

/-- Outcome of a successful render: the returned artifact, the path
handed to `str2file` (if any), and whether the artifact was printed. -/
structure RenderOutcome where
  text : String
  written : Option String
  printed : Bool
deriving DecidableEq, Repr

/-- The walk context assembled by `file_tree_display` before calling
`_build_tree`. -/
def FTDConfig.walkCtx (cfg : FTDConfig) (style : Style)
    (sortLt : Option (String → String → Bool)) : WalkCtx :=
  { style := style
    sortLt := sortLt
    files_first := cfg.files_first
    dir_filter := cfg.dir_filter
    file_filter := cfg.file_filter
    reverse := cfg.reverse
    indent := cfg.indent }

/-- Model of `FileTreeDisplay.file_tree_display`. -/
def file_tree_display (cfg : FTDConfig) : Except FtdError RenderOutcome :=
  if !cfg.rootIsDir then Except.error FtdError.notADirectory
  else
    match format_style cfg with
    | Except.error e => Except.error e
    | Except.ok style =>
      match (if cfg.skip_sorting then Except.ok none
             else match _resolve_sort_key cfg with
               | Except.error e => Except.error e
               | Except.ok k => Except.ok (some k) :
             Except FtdError (Option (String → String → Bool))) with
      | Except.error e => Except.error e
      | Except.ok sortLt =>
        let ctx := cfg.walkCtx style sortLt
        let tree_info := get_tree_info cfg.root.name
          (walkChildren ctx cfg.rootStatus cfg.rootChildren "")
        Except.ok
          { text := tree_info
            written :=
              match cfg.filepath with
              | some p => if cfg.save2file && p ≠ "" then some p else none
              | none => none
            printed := cfg.printout }

/-- Modelled from `__main__.main` (lines 95-97): when the CLI is given
no output path (or an empty one), it computes the default
`<root-name>_filetree.txt` beside the root via `root_dir.with_name` and
passes it to the renderer explicitly.  (The `opts.get('no-save')` guard
in the source always sees `None` because argparse stores the flag under
`no_save`, so the default is computed whenever `filepath` is falsy.) -/
def cli_resolve_filepath (root_dir : PyPath) (given : Option String) :
    Option String :=
  match given with
  | some p =>
    if p = "" then some (pathStr (root_dir.withName (root_dir.name ++ "_filetree.txt")))
    else some p
  | none => some (pathStr (root_dir.withName (root_dir.name ++ "_filetree.txt")))

/-!
## Helper lemmas about the walk
-/


/-!
## Helper lemmas about the emission loop
-/

theorem emitEntries_nil (ctx : WalkCtx) (pfx : String) :
    emitEntries ctx [] pfx = [] := by
  simp [emitEntries]

theorem emitEntries_single (ctx : WalkCtx) (e : FSNode) (pfx : String) :
    emitEntries ctx [e] pfx = renderEntry ctx e pfx true := by
  simp [emitEntries]

theorem emitEntries_cons₂ (ctx : WalkCtx) (x y : FSNode) (ys : List FSNode)
    (pfx : String) :
    emitEntries ctx (x :: y :: ys) pfx =
      renderEntry ctx x pfx false ++ emitEntries ctx (y :: ys) pfx := by
  simp [emitEntries]

theorem emitEntries_append_last (ctx : WalkCtx) (pfx : String)
    (xs : List FSNode) (e : FSNode) :
    emitEntries ctx (xs ++ [e]) pfx =
      (xs.map fun x => renderEntry ctx x pfx false).flatten
        ++ renderEntry ctx e pfx true := by
  induction xs with
  | nil => simp [emitEntries_single]
  | cons x xs ih =>
    cases xs with
    | nil =>
      simp [emitEntries_cons₂, emitEntries_single]
    | cons y ys =>
      rw [List.cons_append, List.cons_append, emitEntries_cons₂,
        ← List.cons_append, ih]
      simp

theorem renderEntry_head (ctx : WalkCtx) (e : FSNode) (pfx : String)
    (isLast : Bool) :
    (renderEntry ctx e pfx isLast).head? =
      some (pfx ++ (if isLast then ctx.style.endc else ctx.style.branch)
        ++ (if e.isDirNoFollow then e.name ++ "/" else e.name)) := by
  cases e <;> simp [renderEntry, FSNode.isDirNoFollow, FSNode.name]

theorem renderEntry_dir (ctx : WalkCtx) (n : String) (st : EnumStatus)
    (ch : List FSNode) (pfx : String) (isLast : Bool) :
    renderEntry ctx (.dir n st ch) pfx isLast =
      (pfx ++ (if isLast then ctx.style.endc else ctx.style.branch) ++ (n ++ "/"))
        :: walkChildren ctx st ch
            (pfx ++ (if isLast then ctx.style.space else ctx.style.vertical)) := by
  simp [renderEntry, FSNode.isDirNoFollow, FSNode.name]

theorem renderEntry_nondir (ctx : WalkCtx) (e : FSNode) (pfx : String)
    (isLast : Bool) (h : e.isDirNoFollow = false) :
    renderEntry ctx e pfx isLast =
      [pfx ++ (if isLast then ctx.style.endc else ctx.style.branch) ++ e.name] := by
  cases e <;> simp_all [renderEntry, FSNode.isDirNoFollow, FSNode.name]

/-!
## Congruence machinery: name-preserving transformations of the tree

Used to show that (a) the contents of a `permissionDenied` directory
never influence the output (claim about placeholder containment), and
(b) entries excluded by the filters never influence the output.
-/

theorem nodeSize_le_of_mem {x : FSNode} {l : List FSNode} (h : x ∈ l) :
    nodeSize x ≤ listSize l := by
  induction l with
  | nil => cases h
  | cons e es ih =>
    cases h with
    | head => simp [listSize]
    | tail _ h =>
      have := ih h
      simp [listSize]
      omega

theorem filter_map_of (f : FSNode → FSNode) (P : FSNode → Bool)
    (hP : ∀ e, P (f e) = P e) (l : List FSNode) :
    (l.map f).filter P = (l.filter P).map f := by
  induction l with
  | nil => rfl
  | cons e es ih =>
    cases hpe : P e <;>
      simp [List.filter_cons, hP, hpe, ih]

theorem insOrd_map_of {α : Type _} (lt : α → α → Bool) (f : α → α)
    (hcmp : ∀ a b, lt (f a) (f b) = lt a b) (a : α) (l : List α) :
    insOrd lt (f a) (l.map f) = (insOrd lt a l).map f := by
  induction l with
  | nil => rfl
  | cons b bs ih =>
    cases hab : lt b a <;>
      simp [insOrd, hcmp, hab, ih]

theorem stableSort_map_of {α : Type _} (lt : α → α → Bool) (f : α → α)
    (hcmp : ∀ a b, lt (f a) (f b) = lt a b) (l : List α) :
    stableSort lt (l.map f) = (stableSort lt l).map f := by
  induction l with
  | nil => rfl
  | cons a as ih => simp [stableSort, ih, insOrd_map_of lt f hcmp]

theorem sortStep_map_of (f : FSNode → FSNode)
    (hname : ∀ e, (f e).name = e.name) (ctx : WalkCtx) (l : List FSNode) :
    sortStep ctx (l.map f) = (sortStep ctx l).map f := by
  unfold sortStep
  cases ctx.sortLt with
  | none => rfl
  | some lt =>
    exact stableSort_map_of _ f (by intro a b; simp [hname]) l

theorem combinedListing_map_of (f : FSNode → FSNode)
    (hname : ∀ e, (f e).name = e.name)
    (hdir : ∀ e, (f e).isDirNoFollow = e.isDirNoFollow)
    (ctx : WalkCtx) (l : List FSNode) :
    combinedListing ctx (l.map f) = (combinedListing ctx l).map f := by
  simp only [combinedListing]
  rw [filter_map_of f _ (by intro e; simp [hname, hdir]) l,
    filter_map_of f _ (by intro e; simp [hname, hdir]) l,
    sortStep_map_of f hname, sortStep_map_of f hname]
  cases ctx.files_first <;> simp

theorem emitEntries_congr (ctx : WalkCtx) (f : FSNode → FSNode)
    (l : List FSNode) (pfx : String)
    (h : ∀ x ∈ l, ∀ isLast : Bool,
      renderEntry ctx (f x) pfx isLast = renderEntry ctx x pfx isLast) :
    emitEntries ctx (l.map f) pfx = emitEntries ctx l pfx := by
  induction l with
  | nil => rfl
  | cons x xs ih =>
    cases xs with
    | nil =>
      simp only [List.map_cons, List.map_nil, emitEntries_single]
      exact h x (by simp) true
    | cons y ys =>
      simp only [List.map_cons]
      rw [emitEntries_cons₂, emitEntries_cons₂, h x (by simp) false]
      rw [show (f y :: List.map f ys) = List.map f (y :: ys) from rfl]
      rw [ih (by intro x hx isLast; exact h x (List.mem_cons_of_mem _ hx) isLast)]

theorem walkChildren_map_of (f : FSNode → FSNode)
    (hname : ∀ e, (f e).name = e.name)
    (hdir : ∀ e, (f e).isDirNoFollow = e.isDirNoFollow)
    (ctx : WalkCtx) (st : EnumStatus) (ch : List FSNode) (pfx : String)
    (hrend : ∀ x ∈ combinedListing ctx ch, ∀ (p : String) (b : Bool),
      renderEntry ctx (f x) p b = renderEntry ctx x p b) :
    walkChildren ctx st (ch.map f) pfx = walkChildren ctx st ch pfx := by
  cases st with
  | permissionDenied => simp [walkChildren]
  | readError => simp [walkChildren]
  | ok =>
    simp only [walkChildren]
    rw [combinedListing_map_of f hname hdir]
    exact emitEntries_congr ctx f _ pfx (fun x hx b => hrend x hx pfx b)

mutual

/-- Replace the (never-read) contents of every directory whose
enumeration raises `PermissionError` by the empty list.  Rendering is
invariant under this operation, which formalises that `_build_tree`
does not descend into such a directory. -/
def scrubDenied : FSNode → FSNode
  | .file n => .file n
  | .symlink n b => .symlink n b
  | .dir n .permissionDenied _ => .dir n .permissionDenied []
  | .dir n st ch => .dir n st (scrubList ch)

/-- Pointwise `scrubDenied` over a list of entries. -/
def scrubList : List FSNode → List FSNode
  | [] => []
  | e :: es => scrubDenied e :: scrubList es

end

theorem scrubList_eq_map (l : List FSNode) : scrubList l = l.map scrubDenied := by
  induction l with
  | nil => rfl
  | cons e es ih => simp [scrubList, ih]

theorem scrubDenied_name (e : FSNode) : (scrubDenied e).name = e.name := by
  cases e with
  | file n => rfl
  | symlink n b => rfl
  | dir n st ch => cases st <;> rfl

theorem scrubDenied_isDir (e : FSNode) :
    (scrubDenied e).isDirNoFollow = e.isDirNoFollow := by
  cases e with
  | file n => rfl
  | symlink n b => rfl
  | dir n st ch => cases st <;> rfl

theorem renderEntry_scrub_bound (k : Nat) :
    ∀ e : FSNode, nodeSize e ≤ k → ∀ (ctx : WalkCtx) (pfx : String) (isLast : Bool),
      renderEntry ctx (scrubDenied e) pfx isLast = renderEntry ctx e pfx isLast := by
  induction k with
  | zero =>
    intro e he
    have := nodeSize_pos e
    omega
  | succ k ih =>
    intro e he ctx pfx isLast
    cases e with
    | file n => rfl
    | symlink n b => rfl
    | dir n st ch =>
      have hch : listSize ch ≤ k := by
        simp [nodeSize] at he
        omega
      cases st with
      | permissionDenied =>
        show renderEntry ctx (.dir n .permissionDenied []) pfx isLast = _
        rw [renderEntry_dir, renderEntry_dir]
        simp [walkChildren]
      | ok =>
        show renderEntry ctx (.dir n .ok (scrubList ch)) pfx isLast = _
        rw [renderEntry_dir, renderEntry_dir, scrubList_eq_map]
        rw [walkChildren_map_of scrubDenied scrubDenied_name scrubDenied_isDir]
        intro x hx p b
        exact ih x
          (le_trans (nodeSize_le_of_mem hx)
            (le_trans (listSize_combinedListing ctx ch) hch)) ctx p b
      | readError =>
        show renderEntry ctx (.dir n .readError (scrubList ch)) pfx isLast = _
        rw [renderEntry_dir, renderEntry_dir, scrubList_eq_map]
        rw [walkChildren_map_of scrubDenied scrubDenied_name scrubDenied_isDir]
        intro x hx p b
        exact ih x
          (le_trans (nodeSize_le_of_mem hx)
            (le_trans (listSize_combinedListing ctx ch) hch)) ctx p b

theorem walkChildren_scrub (ctx : WalkCtx) (st : EnumStatus)
    (ch : List FSNode) (pfx : String) :
    walkChildren ctx st (scrubList ch) pfx = walkChildren ctx st ch pfx := by
  rw [scrubList_eq_map]
  exact walkChildren_map_of scrubDenied scrubDenied_name scrubDenied_isDir
    ctx st ch pfx
    (fun x _ p b => renderEntry_scrub_bound (nodeSize x) x le_rfl ctx p b)

/-- The filter applied to one entry during the partition loop of
`_build_tree`: the directory filter for entries classified as
directories, the file filter otherwise. -/
def keepsEntry (ctx : WalkCtx) (e : FSNode) : Bool :=
  if e.isDirNoFollow then ctx.dir_filter e.name else ctx.file_filter e.name

mutual

/-- Recursively delete, at every depth, the entries that the configured
filters exclude.  Rendering is invariant under this operation: an
excluded entry never influences the output. -/
def pruneNode (ctx : WalkCtx) : FSNode → FSNode
  | .file n => .file n
  | .symlink n b => .symlink n b
  | .dir n st ch => .dir n st (pruneList ctx ch)

/-- Keep the entries passing their filter, pruned recursively. -/
def pruneList (ctx : WalkCtx) : List FSNode → List FSNode
  | [] => []
  | e :: es =>
    if keepsEntry ctx e then pruneNode ctx e :: pruneList ctx es
    else pruneList ctx es

end

theorem pruneNode_name (ctx : WalkCtx) (e : FSNode) :
    (pruneNode ctx e).name = e.name := by
  cases e <;> rfl

theorem pruneNode_isDir (ctx : WalkCtx) (e : FSNode) :
    (pruneNode ctx e).isDirNoFollow = e.isDirNoFollow := by
  cases e <;> rfl

theorem pruneList_eq (ctx : WalkCtx) (l : List FSNode) :
    pruneList ctx l = (l.filter (keepsEntry ctx)).map (pruneNode ctx) := by
  induction l with
  | nil => rfl
  | cons e es ih =>
    cases hk : keepsEntry ctx e <;>
      simp [pruneList, List.filter_cons, hk, ih]

theorem keepsEntry_of_dirPred (ctx : WalkCtx) (e : FSNode) :
    ((e.isDirNoFollow && ctx.dir_filter e.name) && keepsEntry ctx e)
      = (e.isDirNoFollow && ctx.dir_filter e.name) := by
  unfold keepsEntry
  cases hd : e.isDirNoFollow <;> cases hf : ctx.dir_filter e.name <;> simp [hd, hf]

theorem keepsEntry_of_filePred (ctx : WalkCtx) (e : FSNode) :
    ((!e.isDirNoFollow && ctx.file_filter e.name) && keepsEntry ctx e)
      = (!e.isDirNoFollow && ctx.file_filter e.name) := by
  unfold keepsEntry
  cases hd : e.isDirNoFollow <;> cases hf : ctx.file_filter e.name <;> simp [hd, hf]

theorem combinedListing_filter_keeps (ctx : WalkCtx) (ch : List FSNode) :
    combinedListing ctx (ch.filter (keepsEntry ctx)) = combinedListing ctx ch := by
  simp only [combinedListing]
  rw [List.filter_filter, List.filter_filter]
  rw [List.filter_congr (fun e _ => keepsEntry_of_dirPred ctx e),
    List.filter_congr (fun e _ => keepsEntry_of_filePred ctx e)]

theorem walkChildren_filter_keeps (ctx : WalkCtx) (st : EnumStatus)
    (ch : List FSNode) (pfx : String) :
    walkChildren ctx st (ch.filter (keepsEntry ctx)) pfx
      = walkChildren ctx st ch pfx := by
  cases st with
  | permissionDenied => simp [walkChildren]
  | readError => simp [walkChildren]
  | ok =>
    simp only [walkChildren]
    rw [combinedListing_filter_keeps]

theorem renderEntry_prune_bound (k : Nat) :
    ∀ e : FSNode, nodeSize e ≤ k → ∀ (ctx : WalkCtx) (pfx : String) (isLast : Bool),
      renderEntry ctx (pruneNode ctx e) pfx isLast = renderEntry ctx e pfx isLast := by
  induction k with
  | zero =>
    intro e he
    have := nodeSize_pos e
    omega
  | succ k ih =>
    intro e he ctx pfx isLast
    cases e with
    | file n => rfl
    | symlink n b => rfl
    | dir n st ch =>
      have hch : listSize ch ≤ k := by
        simp [nodeSize] at he
        omega
      show renderEntry ctx (.dir n st (pruneList ctx ch)) pfx isLast = _
      rw [renderEntry_dir, renderEntry_dir, pruneList_eq]
      rw [walkChildren_map_of (pruneNode ctx) (pruneNode_name ctx) (pruneNode_isDir ctx)]
      · rw [walkChildren_filter_keeps]
      · intro x hx p b
        have hsz : nodeSize x ≤ k :=
          le_trans (nodeSize_le_of_mem hx)
            (le_trans (listSize_combinedListing ctx _)
              (le_trans (listSize_filter _ ch) hch))
        exact ih x hsz ctx p b

/-!
## Shape of the assembled artifact (`get_tree_info`)
-/

theorem intercalate_go_data (l : List String) (acc s : String) :
    (String.intercalate.go acc s l).data
      = acc.data ++ (l.map fun x => s.data ++ x.data).flatten := by
  induction l generalizing acc with
  | nil => simp [String.intercalate.go]
  | cons b bs ih =>
    rw [show String.intercalate.go acc s (b :: bs)
        = String.intercalate.go (acc ++ s ++ b) s bs from rfl]
    rw [ih]
    simp [String.data_append]

theorem intercalate_data (s a : String) (as : List String) :
    (String.intercalate s (a :: as)).data
      = a.data ++ (as.map fun x => s.data ++ x.data).flatten := by
  rw [show String.intercalate s (a :: as) = String.intercalate.go a s as from rfl]
  exact intercalate_go_data as a s

theorem flatten_shuffle {α : Type _} (c : α) (xs : List (List α)) :
    [c] ++ (xs.map fun x => x ++ [c]).flatten
      = (xs.map fun x => [c] ++ x).flatten ++ [c] := by
  induction xs with
  | nil => simp
  | cons x xs ih =>
    simp only [List.map_cons, List.flatten_cons, List.append_assoc]
    rw [ih]


theorem get_tree_info_eq (n : String) (ls : List String) :
    get_tree_info n ls = String.intercalate "\n" ((n ++ "/") :: ls) := by
  have hL : (ls.map (String.data ∘ fun l => l ++ "\n"))
      = (ls.map String.data).map fun x => x ++ ['\n'] := by
    simp only [List.map_map]
    apply List.map_congr_left
    intro x _
    simp [Function.comp, String.data_append]
  have hR : (ls.map fun x => ("\n" : String).data ++ x.data)
      = (ls.map String.data).map fun x => ['\n'] ++ x := by
    simp only [List.map_map]
    apply List.map_congr_left
    intro x _
    rfl
  have hdata : (n ++ "/\n" ++ String.join (ls.map fun l => l ++ "\n")).data
      = (String.intercalate "\n" ((n ++ "/") :: ls)).data ++ ['\n'] := by
    rw [intercalate_data]
    simp only [String.data_append, String.data_join, List.map_map]
    rw [hL, hR]
    rw [show (['/', '\n'] : List Char) = ['/'] ++ ['\n'] from rfl]
    simp only [List.append_assoc]
    rw [flatten_shuffle '\n' (ls.map String.data)]
  unfold get_tree_info
  rw [if_pos (by rw [hdata]; exact List.getLast?_concat _)]
  rw [hdata, List.dropLast_concat]

/-!
## Claim theorems

Each claim of the specification gets exactly one theorem below (plus a
counterexample for the corrected claims and a witness where a theorem
carries hypotheses).  Example configurations used by the closed
statements follow first.
-/

/-- A walk context with the `classic` style, indent 2, natural sorting,
and pass-everything filters, as produced by a default configuration. -/
def exCtx : WalkCtx :=
  { style := connector_styler 2 "├── " "└── "
    sortLt := some natLtB
    files_first := false
    dir_filter := fun _ => true
    file_filter := fun _ => true
    reverse := false
    indent := 2 }

/-- The same context with sorting disabled. -/
def exCtxNoSort : WalkCtx := { exCtx with sortLt := none }

/-- C7: the natural sort key orders `["file2", "file10", "file1"]`
numerically (`file1 < file2 < file10`) because names are lowercased and
split into alternating non-digit/digit runs with digit runs compared as
integers (witnessed by the key of `"file2"`), while the
case-insensitive lexicographic key yields `file1 < file10 < file2`. -/
theorem natural_vs_lex_sort_example :
    stableSort natLtB ["file2", "file10", "file1"]
        = ["file1", "file2", "file10"]
    ∧ stableSort lexLtB ["file2", "file10", "file1"]
        = ["file1", "file10", "file2"]
    ∧ _nat_key "file2" = [.str "file", .num 2, .str ""]
    ∧ _lex_key "File2" = "file2" := by
  refine ⟨by decide, by decide, by decide, by decide⟩

/-- C5: in every non-empty directory listing (written `xs ++ [e]` after
filtering and ordering), the final entry is rendered with the `end`
connector and hands the `space` extension to its subtree, every earlier
entry is rendered with the `branch` connector and hands the `vertical`
extension down (third conjunct), and each entry's own line carries
exactly the one connector selected by its position (second conjunct). -/
theorem last_sibling_end_connector (ctx : WalkCtx) (pfx : String)
    (xs : List FSNode) (e : FSNode) :
    emitEntries ctx (xs ++ [e]) pfx =
      (xs.map fun x => renderEntry ctx x pfx false).flatten
        ++ renderEntry ctx e pfx true
    ∧ (∀ (x : FSNode) (isLast : Bool),
        (renderEntry ctx x pfx isLast).head? =
          some (pfx ++ (if isLast then ctx.style.endc else ctx.style.branch)
            ++ (if x.isDirNoFollow then x.name ++ "/" else x.name)))
    ∧ (∀ (n : String) (st : EnumStatus) (ch : List FSNode) (isLast : Bool),
        renderEntry ctx (.dir n st ch) pfx isLast =
          (pfx ++ (if isLast then ctx.style.endc else ctx.style.branch) ++ (n ++ "/"))
            :: walkChildren ctx st ch
                (pfx ++ (if isLast then ctx.style.space else ctx.style.vertical)))
    ∧ (∀ ch : List FSNode,
        walkChildren ctx .ok ch pfx
          = emitEntries ctx (combinedListing ctx ch) pfx) :=
  ⟨emitEntries_append_last ctx pfx xs e,
   fun x isLast => renderEntry_head ctx x pfx isLast,
   fun n st ch isLast => renderEntry_dir ctx n st ch pfx isLast,
   fun ch => by simp [walkChildren]⟩

/-- C6: filtering precedes sorting and the last/non-last determination,
so entries excluded by the filters are invisible: a tree and the tree
with every excluded entry deleted (at every depth, `pruneList`) render
to exactly the same lines — hence two trees differing only in excluded
entries produce identical output. -/
theorem filtered_entries_invisible (ctx : WalkCtx) (st : EnumStatus)
    (ch : List FSNode) (pfx : String) :
    walkChildren ctx st (pruneList ctx ch) pfx = walkChildren ctx st ch pfx := by
  rw [pruneList_eq]
  rw [walkChildren_map_of (pruneNode ctx) (pruneNode_name ctx) (pruneNode_isDir ctx)
    ctx st _ pfx
    (fun x _ p b => renderEntry_prune_bound (nodeSize x) x le_rfl ctx p b)]
  exact walkChildren_filter_keeps ctx st ch pfx

/-- C1 (amended): enumeration failure with a permission error yields
exactly one `[Permission Denied]` placeholder line — emitted bare, at
column 0, *without* the accumulated prefix — the walk does not descend
into the failed directory (its contents are irrelevant to the whole
output: second conjunct, via `scrubList`), no exception propagates (the
walk is a total function into lines), and sibling subtrees render
exactly as they would otherwise. -/
theorem permission_denied_placeholder :
    (∀ (ctx : WalkCtx) (ch : List FSNode) (pfx : String),
      walkChildren ctx .permissionDenied ch pfx = ["[Permission Denied]"])
    ∧ (∀ (ctx : WalkCtx) (st : EnumStatus) (ch : List FSNode) (pfx : String),
      walkChildren ctx st (scrubList ch) pfx = walkChildren ctx st ch pfx) :=
  ⟨fun ctx ch pfx => by simp [walkChildren], walkChildren_scrub⟩

/-- C1 counterexample: with the classic style at indent 2, a denied
subdirectory `a` sitting at depth 1 (whose accumulated prefix is the
vertical extension `"│ "`) produces the bare placeholder line
`"[Permission Denied]"`; the prefixed line `"│ [Permission Denied]"`
claimed by the specification appears nowhere in the output. -/
theorem permission_denied_prefix_cex :
    walkChildren exCtx .ok
      [ FSNode.dir "a" .permissionDenied [FSNode.file "secret"]
      , FSNode.dir "b" .ok [FSNode.file "x"] ] ""
      = ["├── a/", "[Permission Denied]", "└── b/", "  └── x"]
    ∧ "│ [Permission Denied]" ∉
        walkChildren exCtx .ok
          [ FSNode.dir "a" .permissionDenied [FSNode.file "secret"]
          , FSNode.dir "b" .ok [FSNode.file "x"] ] "" := by
  have h : walkChildren exCtx .ok
      [ FSNode.dir "a" .permissionDenied [FSNode.file "secret"]
      , FSNode.dir "b" .ok [FSNode.file "x"] ] ""
      = ["├── a/", "[Permission Denied]", "└── b/", "  └── x"] := by
    simp +decide [walkChildren, emitEntries, renderEntry, combinedListing,
      sortStep, stableSort, insOrd, exCtx, connector_styler, mkSpaces,
      FSNode.isDirNoFollow, FSNode.name, natLtB]
  refine ⟨h, ?_⟩
  rw [h]
  decide

/-- C9 (amended): during classification the type test does not follow
symlinks, so a symlink whose target is a directory is *not* classified
as a directory: it is rendered without the trailing `/`, it lands in
the file partition (its admission is decided by the file filter, and
with `files_first = false` it is emitted after real directories), and
the walk never descends through it. -/
theorem symlink_dir_not_followed (ctx : WalkCtx) (n : String) (b : Bool)
    (pfx : String) (isLast : Bool) :
    FSNode.isDirNoFollow (.symlink n b) = false
    ∧ renderEntry ctx (.symlink n b) pfx isLast
        = [pfx ++ (if isLast then ctx.style.endc else ctx.style.branch) ++ n]
    ∧ combinedListing ctx [.symlink n b]
        = (if ctx.file_filter n then sortStep ctx [.symlink n b] else []) := by
  refine ⟨rfl, renderEntry_nondir ctx _ pfx isLast rfl, ?_⟩
  simp only [combinedListing, FSNode.isDirNoFollow, FSNode.name]
  cases hf : ctx.file_filter n <;>
    cases hff : ctx.files_first <;>
    simp [List.filter, hf, hff, sortStep] <;>
    cases ctx.sortLt <;>
    simp [stableSort, insOrd]

/-- C9 counterexample: with sorting disabled and enumeration order
`[symlink s → dir, dir a]`, the symlink is emitted *after* the real
directory (file partition), without a trailing separator and without
any descent — refuting the claim that it is classified as a directory
and rendered with a `/` suffix. -/
theorem symlink_dir_classification_cex :
    walkChildren exCtxNoSort .ok
      [FSNode.symlink "s" true, FSNode.dir "a" .ok []] ""
      = ["├── a/", "└── s"]
    ∧ "├── s/" ∉ walkChildren exCtxNoSort .ok
        [FSNode.symlink "s" true, FSNode.dir "a" .ok []] ""
    ∧ "└── s/" ∉ walkChildren exCtxNoSort .ok
        [FSNode.symlink "s" true, FSNode.dir "a" .ok []] "" := by
  have h : walkChildren exCtxNoSort .ok
      [FSNode.symlink "s" true, FSNode.dir "a" .ok []] ""
      = ["├── a/", "└── s"] := by
    simp +decide [walkChildren, emitEntries, renderEntry, combinedListing,
      sortStep, stableSort, insOrd, exCtxNoSort, exCtx, connector_styler,
      mkSpaces, FSNode.isDirNoFollow, FSNode.name]
  refine ⟨h, ?_, ?_⟩ <;> rw [h] <;> decide

/-- The test "the name matches a literal or a pattern of the set",
which the specification's decision table quantifies over. -/
def matchesFilterSet (fs : List String) (name : String) : Bool :=
  (compile_patts fs).1.contains name || _match_patts name (compile_patts fs).2

theorem compile_patts_flag (fs : List String) :
    (!((compile_patts fs).1.isEmpty && (compile_patts fs).2.isEmpty))
      = !fs.isEmpty := by
  cases fs with
  | nil => rfl
  | cons x t =>
    simp only [compile_patts]
    cases h : hasWildcard x <;>
      simp [List.filter_cons, h]

/-- C3: the built predicate follows the decision table of the
specification: with both sets empty every name passes; with only a
block set, a name passes unless it matches a block literal or block
pattern; with only an allow set, a name passes only if it matches an
allow literal or allow pattern; with both, block takes precedence —
rejected if blocked, otherwise accepted only if allowed. -/
theorem build_predicate_decision_table (allow block : List String)
    (name : String) :
    build_predicate allow block name =
      (if allow.isEmpty && block.isEmpty then true
       else if allow.isEmpty then !(matchesFilterSet block name)
       else if block.isEmpty then matchesFilterSet allow name
       else !(matchesFilterSet block name) && matchesFilterSet allow name) := by
  unfold build_predicate
  rw [compile_patts_flag allow, compile_patts_flag block]
  cases allow with
  | nil =>
    cases block with
    | nil => rfl
    | cons b bs =>
      simp [matchesFilterSet, _match_patt_with_lits]
  | cons a as =>
    cases block with
    | nil =>
      simp [matchesFilterSet, _match_patt_with_lits]
    | cons b bs =>
      simp only [List.isEmpty_cons, Bool.false_and, Bool.not_false, if_false]
      unfold _allow_block_predicate matchesFilterSet
      cases hblk : ((compile_patts (b :: bs)).1.contains name
          || _match_patts name (compile_patts (b :: bs)).2) <;>
        cases halw : ((compile_patts (a :: as)).1.contains name
          || _match_patts name (compile_patts (a :: as)).2) <;>
        simp [hblk, halw]

/-- A minimal valid configuration mirroring the constructor defaults
(`save2file=True`, `filepath=None`, classic style, natural sort), with
an empty root directory `R` under `/tmp`. -/
def exCfg : FTDConfig :=
  { root := { parent := "/tmp", name := "R" }
    rootIsDir := true
    rootStatus := .ok
    rootChildren := []
    filepath := none
    ignore_dirs := []
    ignore_files := []
    include_dirs := []
    include_files := []
    style := "classic"
    indent := 2
    files_first := false
    skip_sorting := false
    sort_key_name := "natural"
    reverse := false
    custom_sort := none
    save2file := true
    printout := false }

/-- C2 counterexample: with the save sink enabled and no explicit
output path, the render call completes but hands nothing to `str2file`
(`written = none`): the renderer itself never resolves the default
`<root-name>_filetree.txt` path. -/
theorem default_path_not_written_cex :
    exCfg.save2file = true
    ∧ exCfg.filepath = none
    ∧ file_tree_display exCfg
        = Except.ok { text := "R/", written := none, printed := false } := by
  refine ⟨rfl, rfl, ?_⟩
  simp +decide [file_tree_display, format_style, style_dict, connector_styler,
    mkSpaces, _resolve_sort_key, FTDConfig.sort_keys, List.lookup,
    FTDConfig.walkCtx, FTDConfig.dir_filter, FTDConfig.file_filter,
    build_predicate, compile_patts, hasWildcard, walkChildren, emitEntries,
    renderEntry, combinedListing, sortStep, stableSort, insOrd,
    get_tree_info, String.join, exCfg]

/-- C2 (amended): the renderer writes the artifact exactly to the
explicitly configured path when the save sink is enabled and that path
is non-empty, and in every other case — no configured path, an empty
configured path, or the save sink disabled — it writes nothing
(`if self.save2file and filepath` guards the `str2file` call, and both
`None` and `""` are falsy). -/
theorem save_sink_path_resolution (cfg : FTDConfig) (o : RenderOutcome)
    (h : file_tree_display cfg = Except.ok o) :
    (∀ p : String, cfg.filepath = some p → cfg.save2file = true → p ≠ "" →
      o.written = some p)
    ∧ (cfg.filepath = none → o.written = none)
    ∧ (cfg.save2file = false → o.written = none)
    ∧ (cfg.filepath = some "" → o.written = none) := by
  unfold file_tree_display at h
  split at h
  · simp at h
  · split at h
    · simp at h
    · split at h
      · simp at h
      · rw [Except.ok.injEq] at h
        subst h
        refine ⟨?_, ?_, ?_, ?_⟩
        · intro p hp hs hne
          simp [hp, hs, hne]
        · intro hp
          simp [hp]
        · intro hs
          cases hp : cfg.filepath with
          | none => simp [hp]
          | some p => simp [hp, hs]
        · intro hp
          simp [hp]

/-- C2 witness: with the explicit path `out.txt` and save enabled the
renderer writes to exactly that path; with the same path but the save
sink disabled it writes nothing. -/
theorem save_sink_path_resolution_witness :
    ({ text := "R/", written := some "out.txt", printed := false }
      : RenderOutcome).written = some "out.txt"
    ∧ ({ text := "R/", written := none, printed := false }
      : RenderOutcome).written = none :=
  ⟨(save_sink_path_resolution { exCfg with filepath := some "out.txt" }
      { text := "R/", written := some "out.txt", printed := false }
      (by simp +decide [file_tree_display, format_style, style_dict,
        connector_styler, mkSpaces, _resolve_sort_key, FTDConfig.sort_keys,
        List.lookup, FTDConfig.walkCtx, FTDConfig.dir_filter,
        FTDConfig.file_filter, build_predicate, compile_patts, hasWildcard,
        walkChildren, emitEntries, renderEntry, combinedListing, sortStep,
        stableSort, insOrd, get_tree_info, String.join,
        exCfg])).1 "out.txt" rfl rfl (by decide),
   (save_sink_path_resolution
      { exCfg with filepath := some "out.txt", save2file := false }
      { text := "R/", written := none, printed := false }
      (by simp +decide [file_tree_display, format_style, style_dict,
        connector_styler, mkSpaces, _resolve_sort_key, FTDConfig.sort_keys,
        List.lookup, FTDConfig.walkCtx, FTDConfig.dir_filter,
        FTDConfig.file_filter, build_predicate, compile_patts, hasWildcard,
        walkChildren, emitEntries, renderEntry, combinedListing, sortStep,
        stableSort, insOrd, get_tree_info, String.join,
        exCfg])).2.2.1 rfl⟩

/-- C4: each configuration/validation failure aborts the render call
with its typed error before any traversal or sink activity: a root that
is not a directory, an unregistered style name, an unrecognized sort
key (with sorting enabled), or sort key `custom` without a comparator.
An aborted call returns no `RenderOutcome` at all — no artifact, no
write, no print. -/
theorem validation_errors_abort (cfg : FTDConfig) :
    (cfg.rootIsDir = false →
      file_tree_display cfg = Except.error FtdError.notADirectory)
    ∧ (cfg.rootIsDir = true →
      List.lookup cfg.style (style_dict cfg.indent) = none →
      file_tree_display cfg = Except.error FtdError.invalidStyle)
    ∧ (cfg.rootIsDir = true → (format_style cfg).isOk = true →
      cfg.skip_sorting = false →
      cfg.sort_key_name ≠ "natural" → cfg.sort_key_name ≠ "lex" →
      cfg.sort_key_name ≠ "custom" →
      file_tree_display cfg = Except.error FtdError.invalidSortKey)
    ∧ (cfg.rootIsDir = true → (format_style cfg).isOk = true →
      cfg.skip_sorting = false →
      cfg.sort_key_name = "custom" → cfg.custom_sort = none →
      file_tree_display cfg = Except.error FtdError.missingCustomSort) := by
  refine ⟨?_, ?_, ?_, ?_⟩
  · intro h
    simp [file_tree_display, h]
  · intro h1 h2
    simp [file_tree_display, h1, format_style, h2]
  · intro h1 hok h3 h4 h5 h6
    match hfs : format_style cfg with
    | Except.error e => rw [hfs] at hok; simp [Except.isOk, Except.toBool] at hok
    | Except.ok style =>
      have hb4 : (cfg.sort_key_name == "natural") = false :=
        beq_eq_false_iff_ne.mpr h4
      have hb5 : (cfg.sort_key_name == "lex") = false :=
        beq_eq_false_iff_ne.mpr h5
      have hb6 : (cfg.sort_key_name == "custom") = false :=
        beq_eq_false_iff_ne.mpr h6
      simp [file_tree_display, h1, hfs, h3, _resolve_sort_key,
        FTDConfig.sort_keys, List.lookup, hb4, hb5, hb6, h6]
  · intro h1 hok h3 h4 h5
    match hfs : format_style cfg with
    | Except.error e => rw [hfs] at hok; simp [Except.isOk, Except.toBool] at hok
    | Except.ok style =>
      have hb4 : (cfg.sort_key_name == "natural") = false := by
        simp [h4]
      have hb5 : (cfg.sort_key_name == "lex") = false := by
        simp [h4]
      simp [file_tree_display, h1, hfs, h3, _resolve_sort_key,
        FTDConfig.sort_keys, List.lookup, hb4, hb5, h4, h5]

/-- C4 witness: the four failure modes at concrete configurations. -/
theorem validation_errors_abort_witness :
    file_tree_display { exCfg with rootIsDir := false }
        = Except.error FtdError.notADirectory
    ∧ file_tree_display { exCfg with style := "zap" }
        = Except.error FtdError.invalidStyle
    ∧ file_tree_display { exCfg with sort_key_name := "zap" }
        = Except.error FtdError.invalidSortKey
    ∧ file_tree_display { exCfg with sort_key_name := "custom" }
        = Except.error FtdError.missingCustomSort :=
  ⟨(validation_errors_abort _).1 rfl,
   (validation_errors_abort _).2.1 rfl rfl,
   (validation_errors_abort _).2.2.1 rfl rfl rfl
     (by decide) (by decide) (by decide),
   (validation_errors_abort _).2.2.2 rfl rfl rfl rfl rfl⟩

/-- C10: with `skip_sorting` set, `_resolve_sort_key` is never invoked:
the outcome does not depend on `sort_key_name` or `custom_sort` at all
(first conjunct), and the render call succeeds — in raw enumeration
order — even with an unrecognized key name or `custom` without a
comparator (second conjunct), provided the root and style checks pass. -/
theorem skip_sorting_skips_validation (cfg : FTDConfig)
    (h : cfg.skip_sorting = true) :
    (∀ (nm : String) (cs : Option (String → String → Bool)),
      file_tree_display { cfg with sort_key_name := nm, custom_sort := cs }
        = file_tree_display cfg)
    ∧ (cfg.rootIsDir = true → (format_style cfg).isOk = true →
      (file_tree_display cfg).isOk = true) := by
  constructor
  · intro nm cs
    simp [file_tree_display, format_style, h, FTDConfig.walkCtx,
      FTDConfig.dir_filter, FTDConfig.file_filter]
  · intro h1 hok
    match hfs : format_style cfg with
    | Except.error e => rw [hfs] at hok; simp [Except.isOk, Except.toBool] at hok
    | Except.ok style =>
      simp [file_tree_display, h1, hfs, h, Except.isOk, Except.toBool]

/-- C10 witness: a skip-sorting configuration with a garbage sort key
name still renders successfully. -/
theorem skip_sorting_skips_validation_witness :
    (file_tree_display
      { exCfg with skip_sorting := true, sort_key_name := "garbage" }).isOk
      = true :=
  (skip_sorting_skips_validation
    { exCfg with skip_sorting := true, sort_key_name := "garbage" } rfl).2 rfl rfl

/-- C8: the assembled artifact is exactly the newline-intercalation of
the header line `<root-name>/` with the traversal lines: the first line
is `<root-name>/`, lines are newline-separated, and no trailing newline
remains (first conjunct, about `get_tree_info`; second conjunct lifts
this to every successful render call). -/
theorem artifact_header_and_newlines :
    (∀ (n : String) (ls : List String),
      get_tree_info n ls = String.intercalate "\n" ((n ++ "/") :: ls))
    ∧ (∀ (cfg : FTDConfig) (o : RenderOutcome),
      file_tree_display cfg = Except.ok o →
      ∃ ls : List String,
        o.text = String.intercalate "\n" ((cfg.root.name ++ "/") :: ls)) := by
  refine ⟨get_tree_info_eq, ?_⟩
  intro cfg o h
  unfold file_tree_display at h
  split at h
  · simp at h
  · split at h
    · simp at h
    · split at h
      · simp at h
      · rw [Except.ok.injEq] at h
        subst h
        exact ⟨_, get_tree_info_eq _ _⟩

/-- C8 witness: the render of the empty root `R` produces the artifact
`"R/"`, the intercalation of the bare header with no traversal lines. -/
theorem artifact_header_and_newlines_witness :
    ∃ ls : List String,
      ({ text := "R/", written := none, printed := false }
        : RenderOutcome).text
        = String.intercalate "\n" (("R" ++ "/") :: ls) :=
  artifact_header_and_newlines.2 exCfg
    { text := "R/", written := none, printed := false }
    (by simp +decide [file_tree_display, format_style, style_dict,
      connector_styler, mkSpaces, _resolve_sort_key, FTDConfig.sort_keys,
      List.lookup, FTDConfig.walkCtx, FTDConfig.dir_filter,
      FTDConfig.file_filter, build_predicate, compile_patts, hasWildcard,
      walkChildren, emitEntries, renderEntry, combinedListing, sortStep,
      stableSort, insOrd, get_tree_info, String.join, exCfg])
